import Mathlib

/-!
Verification of the vboxpy wrapper (`src/vbox.py`) output parser, VM registry
accessor and defaults store.

Lines of external-tool output are modelled as `List Char` (the Python code
works on `bytes`; the repository's data is ASCII so a character list is a
faithful model).  Python's `bytes.find` returns `-1` when the needle is
absent; the source always uses `find(...) + 1`, so we embed that composite
directly as `findP1` (absent ↦ 0, found at index `i` ↦ `i + 1`).  A Python
slice `l[a:b]` with `0 ≤ a, b` is `(l.take b).drop a` (both clamp the same
way).  `bytes.split(sep)` for a one-byte separator keeps empty pieces and
maps `b"" ↦ [b""]`; `pySplit` mirrors that.
-/

/-- Python `line.find(c) + 1` on a character list: `0` when `c` is absent,
`i + 1` when the first occurrence of `c` is at index `i`. -/
def findP1 (c : Char) : List Char → Nat
  | [] => 0
  | x :: rest =>
    if x = c then 1
    else
      match findP1 c rest with
      | 0 => 0
      | n + 1 => n + 2

/-- Python `bytes.split(sep)` for a single-character separator: splits at
every occurrence, keeps empty pieces, and the empty input yields `[[]]`. -/
def pySplit (sep : Char) : List Char → List (List Char)
  | [] => [[]]
  | c :: rest =>
    if c = sep then [] :: pySplit sep rest
    else
      match pySplit sep rest with
      | r :: rs => (c :: r) :: rs
      | [] => [[c]]

/-- ASCII whitespace, as recognised by Python's `bytes.strip`. -/
def isPySpace (c : Char) : Bool :=
  c = ' ' || c = '\t' || c = '\n' || c = '\x0d' || c = '\x0b' || c = '\x0c'

/-- Python `bytes.strip()`: drop leading and trailing ASCII whitespace. -/
def pyStrip (l : List Char) : List Char :=
  ((l.dropWhile isPySpace).reverse.dropWhile isPySpace).reverse

/-- `parse_vm_list_line` (src/vbox.py lines 55-65).  Note the source quirk:
`rquote` and `rbrace` are found in `line[lquote:]` (indices relative to
`lquote`) but are used as absolute slice bounds. -/
def parse_vm_list_line (line : List Char) : List Char × List Char :=
  -- name
  let lquote := findP1 '\"' line
  let rquote := findP1 '\"' (line.drop lquote)
  let name := (line.take rquote).drop lquote
  -- id
  let lbrace := findP1 '\x7b' line
  let rbrace := findP1 '\x7d' (line.drop lquote)
  let id := (line.take rbrace).drop lbrace
  (id, name)

/-- `parse_vm_info_line` (src/vbox.py lines 67-76): `(None, None)` on a line
with no colon (modelled as `none`), otherwise split on the first colon and
strip the value (the key is returned as-is). -/
def parse_vm_info_line (line : List Char) : Option (List Char × List Char) :=
  if ':' ∈ line then
    some ((line.takeWhile (fun c => !(c = ':'))),
      pyStrip ((line.dropWhile (fun c => !(c = ':'))).drop 1))
  else
    none

/-- The `VirtualMachine` class (src/vbox.py lines 79-127): id and name of one
managed VM. -/
structure VirtualMachine where
  id : List Char
  name : List Char
deriving DecidableEq, Repr

/-- `VirtualMachine.__eq__` (src/vbox.py lines 90-91): `self.id == other.id`. -/
def VirtualMachine.eq (a b : VirtualMachine) : Bool :=
  decide (a.id = b.id)

/-- `VirtualMachine.is_running` (src/vbox.py lines 98-104), as a function of
the stdout of `VBoxManage list runningvms`: scan every line of the split
output and report whether some line parses to this VM's id. -/
def is_running (running_stdout : List Char) (vm : VirtualMachine) : Bool :=
  (pySplit '\n' running_stdout).any
    (fun line => decide ((parse_vm_list_line line).1 = vm.id))

/-- `list_vms` (src/vbox.py lines 143-151), as a function of the stdout of
`VBoxManage list vms`: skip empty lines, parse the rest. -/
def list_vms (stdout : List Char) : List VirtualMachine :=
  (((pySplit '\n' stdout).filter (fun line => !line.isEmpty)).map
    (fun line => ⟨(parse_vm_list_line line).1, (parse_vm_list_line line).2⟩))

/-- `vm_by_name` (src/vbox.py lines 153-157): first listed VM with this name. -/
def vm_by_name (stdout : List Char) (name : List Char) : Option VirtualMachine :=
  (list_vms stdout).find? (fun vm => decide (vm.name = name))

/-- `vm_by_id` (src/vbox.py lines 159-163): first listed VM with this id. -/
def vm_by_id (stdout : List Char) (id : List Char) : Option VirtualMachine :=
  (list_vms stdout).find? (fun vm => decide (vm.id = id))

/-!
Defaults store (src/vbox.py lines 175-208).  The defaults file on disk is in
one of three states: absent, present but unparsable JSON, or present and
parsed to a flat mapping.  Mapping values are modelled as strings; a mapping
is an association list honouring Python-dict semantics (`List.lookup` finds
the first binding; dicts built by the code keep keys unique).
-/

/-- The on-disk state of the defaults file. -/
inductive DefaultsFile where
  | absent : DefaultsFile
  | malformed : DefaultsFile
  | stored : List (String × String) → DefaultsFile
deriving DecidableEq, Repr

/-- Python `d.get(k)` / `d[k]`: the value of the first binding of `k`. -/
def dictGet (d : List (String × String)) (k : String) : Option String :=
  match d with
  | [] => none
  | p :: rest => if p.1 = k then some p.2 else dictGet rest k

/-- Python `d[k] = v`: replace the (unique) binding in place if the key is
present, otherwise append a new binding at the end. -/
def dictInsert (d : List (String × String)) (k : String) (v : String) :
    List (String × String) :=
  match d with
  | [] => [(k, v)]
  | p :: rest => if p.1 = k then (k, v) :: rest else p :: dictInsert rest k v

/-- Python `d.update(u)`: set each binding of `u`, in order. -/
def dictUpdate (d u : List (String × String)) : List (String × String) :=
  u.foldl (fun d p => dictInsert d p.1 p.2) d

/-- `get_default` (src/vbox.py lines 175-183): the stored value for `key`,
or `default_value` when the file is absent, unparsable, or lacks the key. -/
def get_default (f : DefaultsFile) (key : String) (default_value : String) :
    String :=
  match f with
  | DefaultsFile.absent => default_value
  | DefaultsFile.malformed => default_value
  | DefaultsFile.stored d => (dictGet d key).getD default_value

/-- `get_defaults` (src/vbox.py lines 185-192): the stored mapping, with an
absent or unparsable file treated as the empty mapping. -/
def get_defaults (f : DefaultsFile) : List (String × String) :=
  match f with
  | DefaultsFile.absent => []
  | DefaultsFile.malformed => []
  | DefaultsFile.stored d => d

/-- `set_defaults` (src/vbox.py lines 194-208): read the prior mapping
(absent or unparsable file yields the empty mapping), drop the `func` key
from the update, overlay the rest, and write the result back. -/
def set_defaults (f : DefaultsFile) (args : List (String × String)) :
    DefaultsFile :=
  let defaults :=
    match f with
    | DefaultsFile.stored d => d
    | _ => []
  DefaultsFile.stored
    (dictUpdate defaults (args.filter (fun p => !(decide (p.1 = "func")))))

/-!
`create_vm` (src/vbox.py lines 210-223).  The external tool is modelled as
an oracle `exec : List String → Bool` mapping an argument vector to exit
success; `vbox_manage` (lines 40-48) raises on failure, which aborts the
remaining steps, so the function is embedded as the list of argument
vectors actually invoked together with an overall success flag.
-/

/-- The arguments of `create_vm` (the `args` namespace of the `create`
subcommand). -/
structure CreateArgs where
  name : String
  iso : String
  os_type : String
  base_folder : String
  cpus : Nat
  ram : Nat
  vram : Nat
  storage : Nat
  vrde_port : Nat
  vrde_host : String
  bridge_adapter : String
deriving Repr

/-- The seven `vbox_manage` argument vectors of `create_vm`, in source
order (src/vbox.py lines 216-222).  `os.path.join` is modelled as `/`
concatenation (the normal case: a relative second component). -/
def create_vm_steps (a : CreateArgs) : List (List String) :=
  let vdi := a.base_folder ++ "/" ++ a.name ++ ".vdi"
  let storage_name := a.name ++ "_sata"
  [ ["createvm", "--name", a.name, "--ostype", a.os_type, "--register",
      "--basefolder", a.base_folder],
    ["modifyvm", a.name, "--cpus", toString a.cpus, "--memory", toString a.ram,
      "--vram", toString a.vram, "--boot1", "dvd", "--vrde", "on",
      "--vrdeport", toString a.vrde_port, "--vrdeaddress", a.vrde_host],
    ["modifyvm", a.name, "--nic1", "bridged", "--bridgeadapter1", a.bridge_adapter],
    ["storagectl", a.name, "--name", storage_name, "--add", "sata"],
    ["createhd", "--filename", vdi, "--size", toString a.storage,
      "--format", "VDI", "--variant", "Standard"],
    ["storageattach", a.name, "--storagectl", storage_name, "--port", "1",
      "--type", "hdd", "--medium", vdi],
    ["storageattach", a.name, "--storagectl", storage_name, "--port", "0",
      "--type", "dvddrive", "--medium", a.iso] ]

/-- Run a sequence of `vbox_manage` invocations in order; a failing
invocation raises, so later ones are not attempted.  Returns the argument
vectors invoked and whether all of them succeeded. -/
def runSteps (exec : List String → Bool) :
    List (List String) → List (List String) × Bool
  | [] => ([], true)
  | s :: rest =>
    if exec s then
      let r := runSteps exec rest
      (s :: r.1, r.2)
    else
      ([s], false)

/-- `create_vm` (src/vbox.py lines 210-223): the seven configuration steps
in order; on full success the final `vm_by_name` lookup invokes
`VBoxManage list vms` once more. -/
def create_vm (exec : List String → Bool) (a : CreateArgs) :
    List (List String) × Bool :=
  match runSteps exec (create_vm_steps a) with
  | (tr, true) => (tr ++ [["list", "vms"]], exec ["list", "vms"])
  | (tr, false) => (tr, false)

/-!
Helper lemmas.
-/

lemma findP1_cons_self (c : Char) (l : List Char) : findP1 c (c :: l) = 1 := by
  simp [findP1]

lemma findP1_of_not_mem {c : Char} {l : List Char} (h : c ∉ l) : findP1 c l = 0 := by
  induction l with
  | nil => rfl
  | cons x rest ih =>
    simp only [List.mem_cons, not_or] at h
    have hx : ¬(x = c) := fun hh => h.1 hh.symm
    simp only [findP1, if_neg hx, ih h.2]

lemma findP1_append {c : Char} {l₁ : List Char} (l₂ : List Char) (h : c ∉ l₁) :
    findP1 c (l₁ ++ c :: l₂) = l₁.length + 1 := by
  induction l₁ with
  | nil => simp [findP1]
  | cons x rest ih =>
    simp only [List.mem_cons, not_or] at h
    have hx : ¬(x = c) := fun hh => h.1 hh.symm
    simp only [List.cons_append, findP1, if_neg hx, List.append_eq, ih h.2,
      List.length_cons]

lemma take_drop_seg (p mid s : List Char) (a b : Nat) (ha : a = p.length)
    (hb : b = p.length + mid.length) :
    ((p ++ (mid ++ s)).take b).drop a = mid := by
  subst ha hb
  rw [← List.append_assoc]
  have hlen : (p ++ mid).length = p.length + mid.length := by simp
  rw [← hlen, List.take_left, List.drop_left]

lemma pySplit_append_sep (sep : Char) (l : List Char) :
    ∃ ys, pySplit sep (l ++ [sep]) = ys ++ [[]] ∧ ys ≠ [] := by
  induction l with
  | nil => exact ⟨[[]], by simp [pySplit], by simp⟩
  | cons c rest ih =>
    obtain ⟨ys, hys, hne⟩ := ih
    by_cases h : c = sep
    · exact ⟨[] :: ys, by simp [pySplit, h, hys], by simp⟩
    · cases ys with
      | nil => exact absurd rfl hne
      | cons y yt =>
        refine ⟨(c :: y) :: yt, ?_, by simp⟩
        simp only [List.cons_append, pySplit, if_neg h, List.append_eq, hys]

lemma find?_name_nodup (l : List VirtualMachine) (vm : VirtualMachine)
    (h : (l.map VirtualMachine.name).Nodup) (hm : vm ∈ l) :
    l.find? (fun x => decide (x.name = vm.name)) = some vm := by
  induction l with
  | nil => cases hm
  | cons x rest ih =>
    rw [List.map_cons, List.nodup_cons] at h
    rcases List.mem_cons.mp hm with rfl | hm'
    · exact List.find?_cons_of_pos _ (by simp)
    · have hx : ¬(x.name = vm.name) := by
        intro he
        exact h.1 (he ▸ List.mem_map_of_mem VirtualMachine.name hm')
      rw [List.find?_cons_of_neg _ (by simpa using hx)]
      exact ih h.2 hm'

lemma find?_id_mem (l : List VirtualMachine) (vm : VirtualMachine) (hm : vm ∈ l) :
    ∃ w, l.find? (fun x => decide (x.id = vm.id)) = some w ∧ w.id = vm.id := by
  induction l with
  | nil => cases hm
  | cons x rest ih =>
    by_cases hx : x.id = vm.id
    · exact ⟨x, List.find?_cons_of_pos _ (by simpa using hx), hx⟩
    · rcases List.mem_cons.mp hm with rfl | hm'
      · exact absurd rfl hx
      · obtain ⟨w, hw, hid⟩ := ih hm'
        exact ⟨w, by rw [List.find?_cons_of_neg _ (by simpa using hx)]; exact hw, hid⟩

lemma dictGet_dictInsert_self (d : List (String × String)) (k v : String) :
    dictGet (dictInsert d k v) k = some v := by
  induction d with
  | nil => simp [dictInsert, dictGet]
  | cons p rest ih =>
    by_cases hp : p.1 = k
    · simp [dictInsert, hp, dictGet]
    · simp [dictInsert, hp, dictGet, ih]

lemma dictGet_dictInsert_ne (d : List (String × String)) {k k' : String}
    (v : String) (h : ¬(k' = k)) :
    dictGet (dictInsert d k' v) k = dictGet d k := by
  induction d with
  | nil => simp [dictInsert, dictGet, h]
  | cons p rest ih =>
    by_cases hp : p.1 = k'
    · have hpk : ¬(p.1 = k) := by rw [hp]; exact h
      simp [dictInsert, hp, dictGet, h, hpk]
    · simp [dictInsert, hp, dictGet, ih]

lemma dictGet_eq_none_of_not_mem {k : String} {d : List (String × String)}
    (h : k ∉ d.map Prod.fst) : dictGet d k = none := by
  induction d with
  | nil => rfl
  | cons p rest ih =>
    simp only [List.map_cons, List.mem_cons, not_or] at h
    have hp : ¬(p.1 = k) := fun hh => h.1 hh.symm
    simp [dictGet, hp, ih h.2]

lemma dictGet_dictUpdate (u : List (String × String)) :
    ∀ (d : List (String × String)) (k : String), (u.map Prod.fst).Nodup →
      dictGet (dictUpdate d u) k =
        Option.orElse (dictGet u k) (fun _ => dictGet d k) := by
  induction u with
  | nil => intro d k _; simp [dictUpdate, dictGet, Option.orElse]
  | cons p rest ih =>
    intro d k hu
    rw [List.map_cons, List.nodup_cons] at hu
    have hstep : dictUpdate d (p :: rest) = dictUpdate (dictInsert d p.1 p.2) rest := rfl
    rw [hstep, ih (dictInsert d p.1 p.2) k hu.2]
    by_cases hk : p.1 = k
    · subst hk
      have h1 : dictGet rest p.1 = none := dictGet_eq_none_of_not_mem hu.1
      have h2 : dictGet (dictInsert d p.1 p.2) p.1 = some p.2 :=
        dictGet_dictInsert_self d p.1 p.2
      simp [h1, h2, dictGet, Option.orElse]
    · have h2 := dictGet_dictInsert_ne d p.2 hk
      simp [h2, dictGet, hk, Option.orElse]

lemma dictGet_filter_func {k : String} (u : List (String × String))
    (h : ¬(k = "func")) :
    dictGet (u.filter (fun p => !(decide (p.1 = "func")))) k = dictGet u k := by
  induction u with
  | nil => rfl
  | cons p rest ih =>
    by_cases hp : p.1 = "func"
    · have hfk : ¬("func" = k) := fun hh => h hh.symm
      simp [List.filter, hp, dictGet, hfk, ih]
    · simp [List.filter, hp, dictGet, ih]

lemma runSteps_all_true (exec : List String → Bool) (l : List (List String))
    (h : ∀ s ∈ l, exec s = true) : runSteps exec l = (l, true) := by
  induction l with
  | nil => rfl
  | cons s rest ih =>
    simp only [runSteps, h s (List.mem_cons_self s rest), if_true,
      ih (fun x hx => h x (List.mem_cons_of_mem s hx))]

lemma runSteps_fail_at (exec : List String → Bool) (l : List (List String))
    (k : Nat) (hk : k < l.length)
    (hpre : (l.take k).all (fun s => exec s) = true)
    (hfail : exec (l.get ⟨k, hk⟩) = false) :
    runSteps exec l = (l.take (k + 1), false) := by
  induction l generalizing k with
  | nil => exact absurd hk (Nat.not_lt_zero k)
  | cons s rest ih =>
    cases k with
    | zero =>
      simp only [List.get] at hfail
      simp [runSteps, hfail]
    | succ k' =>
      have hs : exec s = true := by
        simp only [List.take, List.all_cons, Bool.and_eq_true] at hpre
        exact hpre.1
      have hpre' : (rest.take k').all (fun s => exec s) = true := by
        simp only [List.take, List.all_cons, Bool.and_eq_true] at hpre
        exact hpre.2
      have hk' : k' < rest.length := Nat.lt_of_succ_lt_succ hk
      have hfail' : exec (rest.get ⟨k', hk'⟩) = false := hfail
      simp only [runSteps, hs, if_true, ih k' hk' hpre' hfail', List.take]

lemma takeWhile_not_append {c : Char} {l₁ : List Char} (l₂ : List Char) (h : c ∉ l₁) :
    (l₁ ++ c :: l₂).takeWhile (fun x => !(x = c)) = l₁ := by
  induction l₁ with
  | nil => simp [List.takeWhile]
  | cons x rest ih =>
    simp only [List.mem_cons, not_or] at h
    have hx : ¬(x = c) := fun hh => h.1 hh.symm
    simp [List.takeWhile, hx, ih h.2]

lemma dropWhile_not_append {c : Char} {l₁ : List Char} (l₂ : List Char) (h : c ∉ l₁) :
    (l₁ ++ c :: l₂).dropWhile (fun x => !(x = c)) = c :: l₂ := by
  induction l₁ with
  | nil => simp [List.dropWhile]
  | cons x rest ih =>
    simp only [List.mem_cons, not_or] at h
    have hx : ¬(x = c) := fun hh => h.1 hh.symm
    simp [List.dropWhile, hx, ih h.2]

/-!
Claim theorems.
-/

/-- C1 (amended): for a list line consisting of `"NAME" {ID}` followed by an
arbitrary suffix (in particular trailing whitespace), with `NAME` containing
no quote and no brace characters and `ID` containing no closing brace,
`parse_vm_list_line` returns exactly `(ID, NAME)`.  The result is independent
of trailing whitespace but not of leading whitespace (see the
counterexample). -/
theorem parse_vm_list_line_wellformed (NAME ID trailing : List Char)
    (h1 : '\"' ∉ NAME) (h2 : '\x7b' ∉ NAME) (h3 : '\x7d' ∉ NAME)
    (h4 : '\x7d' ∉ ID) :
    parse_vm_list_line
        ('\"' :: (NAME ++ ('\"' :: ' ' :: '\x7b' :: (ID ++ ('\x7d' :: trailing)))))
      = (ID, NAME) := by
  have hlq : findP1 '\"'
      ('\"' :: (NAME ++ ('\"' :: ' ' :: '\x7b' :: (ID ++ ('\x7d' :: trailing))))) = 1 :=
    findP1_cons_self _ _
  have hdrop1 :
      ('\"' :: (NAME ++ ('\"' :: ' ' :: '\x7b' :: (ID ++ ('\x7d' :: trailing))))).drop 1
        = NAME ++ ('\"' :: ' ' :: '\x7b' :: (ID ++ ('\x7d' :: trailing))) := rfl
  have hrq : findP1 '\"' (NAME ++ ('\"' :: ' ' :: '\x7b' :: (ID ++ ('\x7d' :: trailing))))
      = NAME.length + 1 :=
    findP1_append (' ' :: '\x7b' :: (ID ++ ('\x7d' :: trailing))) h1
  have hname :
      ((('\"' :: (NAME ++ ('\"' :: ' ' :: '\x7b' :: (ID ++ ('\x7d' :: trailing)))))).take
          (NAME.length + 1)).drop 1 = NAME := by
    have := take_drop_seg ['\"'] NAME ('\"' :: ' ' :: '\x7b' :: (ID ++ ('\x7d' :: trailing)))
      1 (NAME.length + 1) (by simp) (by simp [Nat.add_comm])
    simp only [List.singleton_append] at this
    exact this
  have hlb : findP1 '\x7b'
      ('\"' :: (NAME ++ ('\"' :: ' ' :: '\x7b' :: (ID ++ ('\x7d' :: trailing)))))
        = NAME.length + 4 := by
    have hnotmem : '\x7b' ∉ ('\"' :: (NAME ++ ['\"', ' '])) := by
      simp [h2]
    have he : ('\"' :: (NAME ++ ('\"' :: ' ' :: '\x7b' :: (ID ++ ('\x7d' :: trailing)))))
        = ('\"' :: (NAME ++ ['\"', ' '])) ++ ('\x7b' :: (ID ++ ('\x7d' :: trailing))) := by
      simp
    rw [he, findP1_append _ hnotmem]
    simp only [List.length_cons, List.length_append, List.length_nil]
  have hrb : findP1 '\x7d' (NAME ++ ('\"' :: ' ' :: '\x7b' :: (ID ++ ('\x7d' :: trailing))))
      = NAME.length + ID.length + 4 := by
    have hnotmem : '\x7d' ∉ ((NAME ++ ['\"', ' ', '\x7b']) ++ ID) := by
      simp [h3, h4]
    have he : (NAME ++ ('\"' :: ' ' :: '\x7b' :: (ID ++ ('\x7d' :: trailing))))
        = ((NAME ++ ['\"', ' ', '\x7b']) ++ ID) ++ ('\x7d' :: trailing) := by
      simp
    rw [he, findP1_append _ hnotmem]
    simp only [List.length_append, List.length_cons, List.length_nil]
    omega
  have hid :
      ((('\"' :: (NAME ++ ('\"' :: ' ' :: '\x7b' :: (ID ++ ('\x7d' :: trailing)))))).take
          (NAME.length + ID.length + 4)).drop (NAME.length + 4) = ID := by
    have he : ('\"' :: (NAME ++ ('\"' :: ' ' :: '\x7b' :: (ID ++ ('\x7d' :: trailing)))))
        = ('\"' :: (NAME ++ ['\"', ' ', '\x7b'])) ++ (ID ++ ('\x7d' :: trailing)) := by
      simp
    rw [he]
    refine take_drop_seg _ _ _ _ _ ?_ ?_ <;>
      simp only [List.length_cons, List.length_append, List.length_nil] <;>
      try omega
  simp only [parse_vm_list_line]
  rw [hlq, hdrop1, hrq, hlb, hrb, hname, hid]

/-- C1 counterexample: the same well-formed payload `"ab" {cd}` parses to
`("cd", "ab")` without leading whitespace but to the truncated `("c", "a")`
with one leading space, so the result is not independent of surrounding
whitespace. -/
theorem parse_vm_list_line_leading_space_cex :
    parse_vm_list_line (("\"ab\" \x7bcd\x7d").data) = (("cd").data, ("ab").data) ∧
    parse_vm_list_line ((" \"ab\" \x7bcd\x7d").data) = (("c").data, ("a").data) ∧
    (("c").data, ("a").data) ≠ (("cd").data, ("ab").data) := by decide

/-- C1 witness: the amended theorem applied at `"ab" {cd}` with one trailing
space. -/
theorem parse_vm_list_line_wellformed_witness :
    parse_vm_list_line
        ('\"' :: (("ab").data ++ ('\"' :: ' ' :: '\x7b' :: (("cd").data ++ ('\x7d' :: (" ").data)))))
      = (("cd").data, ("ab").data) :=
  parse_vm_list_line_wellformed ("ab").data ("cd").data (" ").data
    (by decide) (by decide) (by decide) (by decide)

/-- C2: at a line with both delimiters absent, `parse_vm_list_line` silently
returns a pair of empty strings instead of failing with a `MalformedLine`
error; the function is total and has no error path at all. -/
theorem parse_vm_list_line_no_error_on_missing_delims :
    parse_vm_list_line (("no delimiters here").data) = ([], []) ∧
    parse_vm_list_line [] = ([], []) := by decide

/-- C3 (amended): `parse_vm_info_line` splits on the first colon; the key is
everything before the colon, returned unchanged (NOT trimmed); the value is
everything after the colon with leading and trailing whitespace stripped; a
line with no colon produces no field. -/
theorem parse_vm_info_line_spec :
    (∀ KEY REST : List Char, ':' ∉ KEY →
      parse_vm_info_line (KEY ++ ':' :: REST) = some (KEY, pyStrip REST)) ∧
    (∀ line : List Char, ':' ∉ line → parse_vm_info_line line = none) := by
  constructor
  · intro KEY REST h
    have hmem : ':' ∈ KEY ++ ':' :: REST :=
      List.mem_append_right _ (List.mem_cons_self _ _)
    have htake := takeWhile_not_append REST h
    have hdrop := dropWhile_not_append REST h
    simp [parse_vm_info_line, hmem, htake, hdrop]
  · intro line h
    simp [parse_vm_info_line, h]

/-- C3 counterexample: on `" k : v"` the parser returns the key `" k "`
with its surrounding whitespace intact, not the trimmed `"k"` the claim
requires. -/
theorem parse_vm_info_line_key_untrimmed_cex :
    parse_vm_info_line ((" k : v").data) = some ((" k ").data, ("v").data) ∧
    (" k ").data ≠ ("k").data := by decide

/-- C3 witness: the amended theorem applied at `Name:  box  ` and at a line
with no colon. -/
theorem parse_vm_info_line_spec_witness :
    parse_vm_info_line (("Name").data ++ ':' :: ("  box  ").data)
        = some (("Name").data, pyStrip (("  box  ").data)) ∧
    parse_vm_info_line (("no colon").data) = none :=
  ⟨parse_vm_info_line_spec.1 ("Name").data ("  box  ").data (by decide),
   parse_vm_info_line_spec.2 ("no colon").data (by decide)⟩

/-- C4: `is_running` is true exactly when the VM's id appears among the ids
parsed from the lines of the running-list output; in particular it is false
for every id not among them. -/
theorem is_running_iff_mem_parsed (stdout : List Char) (vm : VirtualMachine) :
    is_running stdout vm = true ↔
      vm.id ∈ (pySplit '\n' stdout).map (fun line => (parse_vm_list_line line).1) := by
  simp only [is_running, List.any_eq_true, List.mem_map, decide_eq_true_eq]

/-- C9: `VirtualMachine.__eq__` compares by id alone: two VMs are equal iff
their ids are equal, regardless of their names. -/
theorem VirtualMachine.eq_iff_id (a b : VirtualMachine) :
    VirtualMachine.eq a b = true ↔ a.id = b.id := by
  simp [VirtualMachine.eq]

/-- C10: a line containing neither a quote nor a brace parses to the pair of
empty strings, and because `is_running` also parses the empty line after the
output's trailing newline (and the empty output splits to one empty line),
`is_running` is true for a VM whose id is the empty string regardless of
which VMs the output actually lists. -/
theorem is_running_empty_id :
    (∀ line : List Char, '\"' ∉ line → '\x7b' ∉ line → '\x7d' ∉ line →
      parse_vm_list_line line = ([], [])) ∧
    (∀ (stdout : List Char) (vm : VirtualMachine), vm.id = [] →
      (stdout = [] ∨ ∃ pre, stdout = pre ++ ['\n']) →
      is_running stdout vm = true) := by
  constructor
  · intro line hq hlb hrb
    simp only [parse_vm_list_line, findP1_of_not_mem hq, List.drop_zero,
      findP1_of_not_mem hlb, findP1_of_not_mem hrb, List.take_zero]
  · intro stdout vm hid hsplit
    rcases hsplit with rfl | ⟨pre, rfl⟩
    · simp [is_running, pySplit, parse_vm_list_line, findP1, hid]
    · obtain ⟨ys, hys, _⟩ := pySplit_append_sep '\n' pre
      have hp : (parse_vm_list_line []).1 = vm.id := by rw [hid]; rfl
      simp [is_running, hys, List.any_append, hp]

/-- C10 witness: the theorem applied at a delimiter-free line and at a
running-list output with a trailing newline together with an empty-id VM. -/
theorem is_running_empty_id_witness :
    parse_vm_list_line (("abc").data) = ([], []) ∧
    is_running (("\"a\" \x7bx\x7d\n").data) ⟨[], ("v").data⟩ = true :=
  ⟨is_running_empty_id.1 ("abc").data (by decide) (by decide) (by decide),
   is_running_empty_id.2 (("\"a\" \x7bx\x7d\n").data) ⟨[], ("v").data⟩ rfl
     (Or.inr ⟨(("\"a\" \x7bx\x7d").data), by decide⟩)⟩

/-- C5: `create_vm` performs its seven configuration invocations in source
order (register, cpu/ram/vram/boot/vrde, network bridge, storage controller,
create disk, attach disk, attach install medium; on full success the final
`vm_by_name` adds one `list vms` read); when step `k` fails, the invocations
made are exactly the first `k + 1` steps — nothing afterwards and no cleanup
or rollback invocation of any kind. -/
theorem create_vm_sequence :
    (∀ (exec : List String → Bool) (a : CreateArgs),
      (∀ s ∈ create_vm_steps a, exec s = true) →
      create_vm exec a
        = (create_vm_steps a ++ [["list", "vms"]], exec ["list", "vms"])) ∧
    (∀ (exec : List String → Bool) (a : CreateArgs) (k : Nat)
      (hk : k < (create_vm_steps a).length),
      ((create_vm_steps a).take k).all (fun s => exec s) = true →
      exec ((create_vm_steps a).get ⟨k, hk⟩) = false →
      create_vm exec a = ((create_vm_steps a).take (k + 1), false)) := by
  constructor
  · intro exec a h
    simp [create_vm, runSteps_all_true exec _ h]
  · intro exec a k hk hpre hfail
    simp [create_vm, runSteps_fail_at exec _ k hk hpre hfail]

/-- C5 witness: the theorem applied with an external tool that fails the
first disk-attach step (step index 5): exactly the first six invocations are
made and the run reports failure. -/
theorem create_vm_sequence_witness :
    create_vm (fun s => decide (s.head? ≠ some "storageattach"))
        ⟨"vm", "os.iso", "Other_64", "base", 4, 4096, 128, 60000, 5000,
          "127.0.0.1", "eth0"⟩
      = ((create_vm_steps
          ⟨"vm", "os.iso", "Other_64", "base", 4, 4096, 128, 60000, 5000,
            "127.0.0.1", "eth0"⟩).take 6, false) :=
  create_vm_sequence.2 _ _ 5 (by decide) (by decide) (by decide)

/-- C6 (amended): provided no two listed VMs share a name, every VM in the
listing is found again both by its name and by its id, with matching id.
(With duplicate names, the name lookup returns the first VM with that name,
whose id may differ — see the counterexample.) -/
theorem vm_lookup_consistent (stdout : List Char) (vm : VirtualMachine)
    (hnodup : ((list_vms stdout).map VirtualMachine.name).Nodup)
    (hmem : vm ∈ list_vms stdout) :
    (vm_by_name stdout vm.name).map VirtualMachine.id = some vm.id ∧
    (vm_by_id stdout vm.id).map VirtualMachine.id = some vm.id := by
  constructor
  · rw [vm_by_name, find?_name_nodup _ vm hnodup hmem]
    rfl
  · obtain ⟨w, hw, hid⟩ := find?_id_mem (list_vms stdout) vm hmem
    rw [vm_by_id, hw]
    simpa using hid

/-- C6 counterexample: in the listing `"a" {x}`, `"a" {y}` the VM with id
`y` is present, but looking it up by its name `a` returns the VM with id
`x`, not `y`. -/
theorem vm_lookup_duplicate_name_cex :
    (⟨("y").data, ("a").data⟩ : VirtualMachine)
        ∈ list_vms (("\"a\" \x7bx\x7d\n\"a\" \x7by\x7d\n").data) ∧
    (vm_by_name (("\"a\" \x7bx\x7d\n\"a\" \x7by\x7d\n").data) (("a").data)).map
        VirtualMachine.id = some (("x").data) ∧
    ¬(some (("x").data) = some (("y").data)) := by decide

/-- C6 witness: the amended theorem applied to the duplicate-free listing
`"a" {x}`, `"b" {y}` and the VM `⟨x, a⟩`. -/
theorem vm_lookup_consistent_witness :
    (vm_by_name (("\"a\" \x7bx\x7d\n\"b\" \x7by\x7d\n").data) (("a").data)).map
        VirtualMachine.id = some (("x").data) ∧
    (vm_by_id (("\"a\" \x7bx\x7d\n\"b\" \x7by\x7d\n").data) (("x").data)).map
        VirtualMachine.id = some (("x").data) :=
  vm_lookup_consistent (("\"a\" \x7bx\x7d\n\"b\" \x7by\x7d\n").data)
    ⟨("x").data, ("a").data⟩ (by decide) (by decide)

/-- C7 (amended): writing a defaults update and re-reading yields the prior
mapping with the update overlaid, for every key other than `func` (with the
update's keys distinct, as for a Python dict): keys in the update take their
new values and other prior keys keep their old values.  A `func` key in the
update is discarded by `set_defaults`, never written — see the
counterexample. -/
theorem set_get_defaults_roundtrip (prior update : List (String × String))
    (k : String) (hnodup : (update.map Prod.fst).Nodup) (hk : ¬(k = "func")) :
    dictGet (get_defaults (set_defaults (DefaultsFile.stored prior) update)) k
      = Option.orElse (dictGet update k) (fun _ => dictGet prior k) := by
  have hsub : ((update.filter (fun p => !(decide (p.1 = "func")))).map Prod.fst).Nodup :=
    List.Nodup.sublist (List.Sublist.map Prod.fst (List.filter_sublist update)) hnodup
  have h1 : get_defaults (set_defaults (DefaultsFile.stored prior) update)
      = dictUpdate prior (update.filter (fun p => !(decide (p.1 = "func")))) := rfl
  rw [h1, dictGet_dictUpdate _ prior k hsub, dictGet_filter_func update hk]

/-- C7 counterexample: updating an empty prior mapping with `{func: x}`
stores nothing — re-reading gives no `func` key, while the claim requires
the update's key to take its new value. -/
theorem set_defaults_func_dropped_cex :
    dictGet (get_defaults (set_defaults (DefaultsFile.stored []) [("func", "x")]))
        "func" = none ∧
    (none : Option String) ≠ some "x" := by decide

/-- C7 witness: the amended theorem applied to prior `{a: 1, b: 2}`, update
`{b: 9, c: 3}` and key `b`. -/
theorem set_get_defaults_roundtrip_witness :
    dictGet (get_defaults (set_defaults (DefaultsFile.stored [("a", "1"), ("b", "2")])
        [("b", "9"), ("c", "3")])) "b"
      = Option.orElse (dictGet [("b", "9"), ("c", "3")] "b")
          (fun _ => dictGet [("a", "1"), ("b", "2")] "b") :=
  set_get_defaults_roundtrip [("a", "1"), ("b", "2")] [("b", "9"), ("c", "3")] "b"
    (by decide) (by decide)

/-- C8: a present-but-unparsable defaults file raises no error and behaves
exactly like an absent (empty) one: `get_defaults` returns the empty
mapping and `get_default` returns the caller-supplied default value. -/
theorem malformed_defaults_treated_empty :
    get_defaults DefaultsFile.malformed = [] ∧
    get_defaults DefaultsFile.malformed = get_defaults DefaultsFile.absent ∧
    (∀ key dv : String, get_default DefaultsFile.malformed key dv = dv) ∧
    (∀ key dv : String, get_default DefaultsFile.malformed key dv
        = get_default DefaultsFile.absent key dv) :=
  ⟨rfl, rfl, fun _ _ => rfl, fun _ _ => rfl⟩
